import Mathlib

/-!
# Verification of `src/js/blog.js` (muro_services)

A shallow embedding of the blog presentation layer: text utilities
(`getPlainText`, `createExcerpt`, `escapeHtml`, `decodeHtmlEntities`,
`formatSupabaseDate`), the filter engine (`passesFilters`), related-post
scoring (`getRelatedPosts`), the grid renderer (`renderPosts`), the modal
markup fragments of `openBlogModal`, the tag-button click handler of
`buildFilterButtons`, and the `loadPosts` data loader.

Strings are JS strings modelled as Lean `String`/`List Char`; DOM side
effects are modelled as explicit state records and action traces.
-/

namespace Blog

/-! ## Generic list-of-characters helpers -/

/-- `listStartsWith pat l` is true when `pat` is an initial segment of `l`. -/
def listStartsWith : List Char → List Char → Bool
  | [], _ => true
  | _ :: _, [] => false
  | a :: as, b :: bs => a = b && listStartsWith as bs

/-- `listContainsSub pat l` is true when `pat` occurs as a contiguous
substring of `l` (the JS `String.prototype.includes`). -/
def listContainsSub (pat : List Char) : List Char → Bool
  | [] => listStartsWith pat []
  | l@(_ :: rest) => listStartsWith pat l || listContainsSub pat rest

/-- Substring containment on `String` (JS `haystack.includes(needle)`). -/
def strIncludes (hay needle : String) : Bool :=
  listContainsSub needle.data hay.data

/-- Lowercasing (JS `String.prototype.toLowerCase`, ASCII range),
character by character. -/
def strToLower (s : String) : String := ⟨s.data.map Char.toLower⟩

/-- Whitespace test used by the JS `\s` class and `String.prototype.trim`. -/
def isWs (c : Char) : Bool := c.isWhitespace

/-- Drop leading whitespace (the left half of JS `trim`). -/
def trimLeftL (l : List Char) : List Char := l.dropWhile isWs

/-- Drop trailing whitespace (the right half of JS `trim`). -/
def trimRightL : List Char → List Char
  | [] => []
  | c :: r =>
    match trimRightL r with
    | [] => if isWs c then [] else [c]
    | r' => c :: r'

/-- JS `String.prototype.trim` on character lists. -/
def jsTrimL (l : List Char) : List Char := trimRightL (trimLeftL l)

/-! ## `escapeHtml` (src/js/blog.js lines 20–27)

The source chains five global single-character `replace` calls, ampersand
first.  A global replace of a one-character pattern is `List.flatMap` of a
per-character substitution. -/

/-- JS `str.replace(/c/g, rep)` for a single-character pattern `c`. -/
def replaceCharAll (c : Char) (rep : List Char) (l : List Char) : List Char :=
  l.flatMap fun a => if a = c then rep else [a]

/-- `escapeHtml` from the source: the five replacements in source order
(`&`, `<`, `>`, `"`, `'`). -/
def escapeHtml (s : String) : String :=
  ⟨replaceCharAll '\'' "&#39;".data
    (replaceCharAll '"' "&quot;".data
      (replaceCharAll '>' "&gt;".data
        (replaceCharAll '<' "&lt;".data
          (replaceCharAll '&' "&amp;".data s.data))))⟩

/-- The spec's description of `escapeForHtml`: a single pass that replaces
exactly the five characters `& < > " '` with their entities and leaves
every other character untouched (no later replacement ever rescans the
output of an earlier one). -/
def escChar (c : Char) : List Char :=
  if c = '&' then "&amp;".data
  else if c = '<' then "&lt;".data
  else if c = '>' then "&gt;".data
  else if c = '"' then "&quot;".data
  else if c = '\'' then "&#39;".data
  else [c]

/-- One-pass escaping following the spec's words. -/
def escapeForHtmlSpec (s : String) : String := ⟨s.data.flatMap escChar⟩

theorem replaceCharAll_append (c : Char) (rep : List Char) (a b : List Char) :
    replaceCharAll c rep (a ++ b) = replaceCharAll c rep a ++ replaceCharAll c rep b := by
  simp [replaceCharAll]

theorem escapeHtml_data (s : String) :
    (escapeHtml s).data =
      replaceCharAll '\'' "&#39;".data
        (replaceCharAll '"' "&quot;".data
          (replaceCharAll '>' "&gt;".data
            (replaceCharAll '<' "&lt;".data
              (replaceCharAll '&' "&amp;".data s.data)))) := rfl

/-- The five sequential replacements agree with the one-pass substitution on
a single character. -/
theorem escape_chain_single (a : Char) :
    replaceCharAll '\'' "&#39;".data
      (replaceCharAll '"' "&quot;".data
        (replaceCharAll '>' "&gt;".data
          (replaceCharAll '<' "&lt;".data
            (replaceCharAll '&' "&amp;".data [a])))) = escChar a := by
  by_cases h1 : a = '&'
  · subst h1; rfl
  · by_cases h2 : a = '<'
    · subst h2; rfl
    · by_cases h3 : a = '>'
      · subst h3; rfl
      · by_cases h4 : a = '"'
        · subst h4; rfl
        · by_cases h5 : a = '\''
          · subst h5; rfl
          · simp [replaceCharAll, escChar, h1, h2, h3, h4, h5]

theorem escape_chain_eq_spec (l : List Char) :
    replaceCharAll '\'' "&#39;".data
      (replaceCharAll '"' "&quot;".data
        (replaceCharAll '>' "&gt;".data
          (replaceCharAll '<' "&lt;".data
            (replaceCharAll '&' "&amp;".data l)))) = l.flatMap escChar := by
  induction l with
  | nil => rfl
  | cons a l ih =>
    have : (a :: l) = [a] ++ l := rfl
    rw [this]
    simp only [replaceCharAll_append, List.flatMap_append]
    rw [escape_chain_single a, ih]
    simp [List.flatMap]

/-- **C8.** For every input string, `escapeHtml` replaces exactly the five
characters `& < > " '` with their HTML entities: because the ampersand
replacement runs first, none of the later replacements re-escapes an entity
introduced (or already present) in the text — the chained replacements are
extensionally the single-pass per-character substitution `escapeForHtmlSpec`. -/
theorem escapeHtml_eq_spec (s : String) : escapeHtml s = escapeForHtmlSpec s := by
  apply congrArg String.mk
  exact escape_chain_eq_spec s.data

/-- Concrete instance of `escapeHtml_eq_spec` at an input containing all five
special characters and a pre-existing entity. -/
theorem escapeHtml_eq_spec_witness :
    escapeHtml "a&lt;<>\"'" = escapeForHtmlSpec "a&lt;<>\"'" :=
  escapeHtml_eq_spec "a&lt;<>\"'"

/-! ## `getPlainText` (src/js/blog.js lines 5–10) and
`createExcerpt` (lines 13–17)

The source's `getPlainText` extracts `textContent` from a scratch DOM
element, then applies `.replace(/\s+/g, ' ').trim()`. -/

/-- Tag stripping pass.  The flag records whether the scan is currently
inside a `<...>` region.

Modelled from the spec: the DOM step of `getPlainText` (assigning
`innerHTML` to a scratch element and reading `textContent`) is external to
the repository; per spec §4.1 `plainText` "strips markup". -/
def stripTagsAux : Bool → List Char → List Char
  | _, [] => []
  | true, c :: r => if c = '>' then stripTagsAux false r else stripTagsAux true r
  | false, c :: r => if c = '<' then stripTagsAux true r else c :: stripTagsAux false r

/-- Whitespace-run collapsing (`.replace(/\s+/g, ' ')`).  The flag records
whether the previous character belonged to a whitespace run. -/
def collapseWsAux : Bool → List Char → List Char
  | _, [] => []
  | inRun, c :: r =>
    if isWs c then
      if inRun then collapseWsAux true r else ' ' :: collapseWsAux true r
    else c :: collapseWsAux false r

/-- `getPlainText`: strip markup, collapse whitespace runs to single
spaces, trim both ends. -/
def getPlainText (html : String) : String :=
  ⟨jsTrimL (collapseWsAux false (stripTagsAux false html.data))⟩

/-- `createExcerpt(html, maxLength)` from the source: plain text; if its
length fits, return it unchanged; otherwise `slice(0, maxLength).trim()`
followed by the ellipsis character. -/
def createExcerpt (html : String) (maxLength : Nat) : String :=
  let cleaned := getPlainText html
  if cleaned.length ≤ maxLength then cleaned
  else ⟨jsTrimL (cleaned.data.take maxLength)⟩ ++ "…"

/-- `headNotWs l`: `l` is empty or starts with a non-whitespace character. -/
def headNotWs : List Char → Prop
  | [] => True
  | c :: _ => isWs c = false

@[simp] theorem headNotWs_nil : headNotWs [] := trivial

@[simp] theorem headNotWs_cons (c : Char) (l : List Char) :
    headNotWs (c :: l) ↔ isWs c = false := Iff.rfl

theorem trimRightL_length (l : List Char) : (trimRightL l).length ≤ l.length := by
  induction l with
  | nil => simp [trimRightL]
  | cons c r ih =>
    simp only [trimRightL]
    cases h : trimRightL r with
    | nil =>
      by_cases hw : isWs c <;> simp [hw]
    | cons a t =>
      simp only [List.length_cons]
      rw [h] at ih
      simpa using ih

theorem trimRightL_cons_cases (c : Char) (r : List Char) :
    trimRightL (c :: r) = [] ∨ ∃ t, trimRightL (c :: r) = c :: t := by
  simp only [trimRightL]
  cases h : trimRightL r with
  | nil =>
    by_cases hw : isWs c
    · left; simp [hw]
    · right; exact ⟨[], by simp [hw]⟩
  | cons a t => right; exact ⟨a :: t, rfl⟩

theorem headNotWs_trimLeftL (l : List Char) : headNotWs (trimLeftL l) := by
  induction l with
  | nil => trivial
  | cons c r ih =>
    by_cases hw : isWs c
    · simpa [trimLeftL, List.dropWhile, hw] using ih
    · simp only [Bool.not_eq_true] at hw
      simp [trimLeftL, List.dropWhile, hw]

theorem headNotWs_trimRightL (l : List Char) (h : headNotWs l) :
    headNotWs (trimRightL l) := by
  cases l with
  | nil => trivial
  | cons c r =>
    rcases trimRightL_cons_cases c r with h0 | ⟨t, ht⟩
    · rw [h0]; trivial
    · rw [ht]; exact h

theorem headNotWs_jsTrimL (l : List Char) : headNotWs (jsTrimL l) :=
  headNotWs_trimRightL _ (headNotWs_trimLeftL l)

theorem headNotWs_take (l : List Char) (n : Nat) (h : headNotWs l) :
    headNotWs (l.take n) := by
  cases l with
  | nil => simp [List.take]
  | cons c r =>
    cases n with
    | zero => trivial
    | succ m => exact h

theorem trimLeftL_of_headNotWs (l : List Char) (h : headNotWs l) :
    trimLeftL l = l := by
  cases l with
  | nil => rfl
  | cons c r =>
    rw [headNotWs_cons] at h
    simp [trimLeftL, List.dropWhile, h]

theorem jsTrimL_of_headNotWs (l : List Char) (h : headNotWs l) :
    jsTrimL l = trimRightL l := by
  rw [jsTrimL, trimLeftL_of_headNotWs l h]

/-- **C6.** For every html input and bound `N`: when the plain-text form of
the input fits in `N` characters, `createExcerpt` returns it unchanged;
otherwise it returns the first `N` characters with trailing whitespace
trimmed (the leading side is already trimmed, so JS `trim` only removes
trailing whitespace here) followed by the one-character ellipsis marker.
In both cases the result length is at most `N + 1`. -/
theorem createExcerpt_spec (html : String) (N : Nat) :
    (createExcerpt html N =
      if (getPlainText html).length ≤ N then getPlainText html
      else String.mk (trimRightL ((getPlainText html).data.take N)) ++ "…")
    ∧ (createExcerpt html N).length ≤ N + 1 := by
  have hhead : headNotWs (getPlainText html).data := headNotWs_jsTrimL _
  have htrim : jsTrimL ((getPlainText html).data.take N)
      = trimRightL ((getPlainText html).data.take N) :=
    jsTrimL_of_headNotWs _ (headNotWs_take _ _ hhead)
  constructor
  · rw [createExcerpt, htrim]
  · by_cases hle : (getPlainText html).length ≤ N
    · rw [createExcerpt, if_pos hle]
      omega
    · rw [createExcerpt, if_neg hle, htrim]
      have h1 : (trimRightL ((getPlainText html).data.take N)).length
          ≤ ((getPlainText html).data.take N).length := trimRightL_length _
      have h2 : ((getPlainText html).data.take N).length ≤ N := by
        simp [List.length_take]
      have h3 : (String.mk (trimRightL ((getPlainText html).data.take N)) ++ "…").length
          = (trimRightL ((getPlainText html).data.take N)).length + 1 := by
        rw [String.length_append]
        rfl
      omega

/-- Concrete instance of `createExcerpt_spec`: an over-long plain text is
hard-cut at the bound, trailing whitespace trimmed, ellipsis appended. -/
theorem createExcerpt_spec_witness :
    createExcerpt "<p>hello world</p>" 6 =
      (if (getPlainText "<p>hello world</p>").length ≤ 6 then getPlainText "<p>hello world</p>"
       else String.mk (trimRightL ((getPlainText "<p>hello world</p>").data.take 6)) ++ "…")
    ∧ (createExcerpt "<p>hello world</p>" 6).length ≤ 6 + 1 :=
  createExcerpt_spec "<p>hello world</p>" 6

/-! ## `decodeHtmlEntities` (src/js/blog.js lines 32–56)

The source decodes one layer of HTML entities per pass by assigning the
current string to a `textarea`'s `innerHTML` and reading back `.value`,
repeating in a do-while loop: at most 5 passes, stopping early at a fixed
point or when the pattern `/&(lt|gt|amp|quot|#39);/i` no longer matches. -/

/-- One decoding pass over the character list, scanning left to right and
replacing each entity occurrence by its character (fuel-driven so the
definition reduces in the kernel; fuel is instantiated with the list
length, which bounds the number of steps).

Modelled from the spec: the browser `textarea` decode is external to the
repository; per spec §4.1 `decodeEntities` "reverses HTML-entity
escaping", so one pass is modelled as decoding the five entities produced
by `escapeForHtml` (`&lt; &gt; &amp; &quot; &#39;` — exactly the patterns
the loop's regex recognizes). -/
def decodeOnceAux : Nat → List Char → List Char
  | 0, l => l
  | _ + 1, [] => []
  | f + 1, '&' :: 'l' :: 't' :: ';' :: r => '<' :: decodeOnceAux f r
  | f + 1, '&' :: 'g' :: 't' :: ';' :: r => '>' :: decodeOnceAux f r
  | f + 1, '&' :: 'a' :: 'm' :: 'p' :: ';' :: r => '&' :: decodeOnceAux f r
  | f + 1, '&' :: 'q' :: 'u' :: 'o' :: 't' :: ';' :: r => '"' :: decodeOnceAux f r
  | f + 1, '&' :: '#' :: '3' :: '9' :: ';' :: r => '\'' :: decodeOnceAux f r
  | f + 1, c :: r => c :: decodeOnceAux f r

/-- One entity-decoding pass (one `textarea` round trip). -/
def decodeOnce (l : List Char) : List Char := decodeOnceAux l.length l

/-- The loop's guard regex `/&(lt|gt|amp|quot|#39);/i`: does any of the
five entity patterns occur (case-insensitively) in the string? -/
def hasEntityPattern (l : List Char) : Bool :=
  let low := l.map Char.toLower
  listContainsSub "&lt;".data low || listContainsSub "&gt;".data low ||
    listContainsSub "&amp;".data low || listContainsSub "&quot;".data low ||
    listContainsSub "&#39;".data low

/-- The do-while loop of `decodeHtmlEntities`.  `decodeLoopAux (f + 1)`
performs one pass and continues (with `f` passes remaining) while passes
remain, the string changed, and the entity pattern still matches — exactly
the source's `iterations < 5 && current !== prev && pattern.test(current)`
checked after each pass. -/
def decodeLoopAux : Nat → List Char → List Char
  | 0, cur => cur
  | f + 1, cur =>
    let next := decodeOnce cur
    if f ≠ 0 ∧ next ≠ cur ∧ hasEntityPattern next = true then decodeLoopAux f next
    else next

/-- `decodeHtmlEntities` from the source: up to 5 decoding passes. -/
def decodeHtmlEntities (s : String) : String := ⟨decodeLoopAux 5 s.data⟩

/-- A string on which one decoding pass is a no-op is a fixed point of the
whole loop. -/
theorem decodeHtmlEntities_fixed (z : String) (h : decodeOnce z.data = z.data) :
    decodeHtmlEntities z = z := by
  show String.mk (decodeLoopAux 5 z.data) = z
  simp [decodeLoopAux, h]

/-- **C3 (amended).** `decodeEntities` is idempotent on every input whose
decoding run terminates at a genuine fixed point (equivalently, whose
output no recognizable entity pattern can decode further): if one decoding
pass leaves `decodeEntities x` unchanged, then
`decodeEntities (decodeEntities x) = decodeEntities x`.  (Idempotence for
*all* inputs fails: an input escaped more than five levels deep exhausts
the 5-pass cap with entities left over, and a second call decodes
further.) -/
theorem decodeHtmlEntities_idem (x : String)
    (h : decodeOnce (decodeHtmlEntities x).data = (decodeHtmlEntities x).data) :
    decodeHtmlEntities (decodeHtmlEntities x) = decodeHtmlEntities x :=
  decodeHtmlEntities_fixed _ h

/-- Concrete instance of `decodeHtmlEntities_idem`: a doubly-escaped
paragraph decodes to a fixed point within the 5-pass budget. -/
theorem decodeHtmlEntities_idem_witness :
    decodeHtmlEntities (decodeHtmlEntities "&amp;lt;p&amp;gt;") =
      decodeHtmlEntities "&amp;lt;p&amp;gt;" :=
  decodeHtmlEntities_idem "&amp;lt;p&amp;gt;" (by decide)

/-- **C3 counterexample.** On the 6-fold-escaped `<`, the first call stops
at the 5-pass cap with `&lt;` remaining, and a second call decodes it to
`<`: `decodeEntities` is not idempotent on all inputs. -/
theorem decodeHtmlEntities_not_idempotent :
    decodeHtmlEntities (decodeHtmlEntities "&amp;amp;amp;amp;amp;lt;") ≠
      decodeHtmlEntities "&amp;amp;amp;amp;amp;lt;" := by decide

/-! ## Data model and view state (src/js/blog.js lines 90–95)

A `Post` row as selected by `loadPosts` (`title, slug, content,
published_at, category, tags, author`); optional columns are `Option`.
The module-level mutable view state (`allPosts`, `selectedCategory`,
`selectedTag`, `searchQuery`) becomes a record threaded explicitly. -/

structure Post where
  title : String
  slug : String
  content : String
  published_at : String
  category : Option String
  tags : Option (List String)
  author : Option String
deriving DecidableEq, Repr

structure BlogState where
  allPosts : List Post
  selectedCategory : String
  selectedTag : Option String
  searchQuery : String
deriving DecidableEq, Repr

/-! ## `passesFilters` (src/js/blog.js lines 99–124) -/

/-- `passesFilters(post)`: conjunction of the category, tag and search
checks, reading the three selections from the view state.  `(post.category
|| '')` is `category.getD ""`; `Array.isArray(post.tags) ? ... : []` is
`tags.getD []`; the search haystack is the lowercased title plus the
plain-text content, and the query is lowercased but *not* trimmed (only
the truthiness test uses `trim()`), as in the source. -/
def passesFilters (st : BlogState) (post : Post) : Bool :=
  (if st.selectedCategory ≠ "" ∧ st.selectedCategory ≠ "all"
   then strToLower (post.category.getD "") == strToLower st.selectedCategory
   else true)
  &&
  (match st.selectedTag with
   | some t => ((post.tags.getD []).map strToLower).contains (strToLower t)
   | none => true)
  &&
  (if String.mk (jsTrimL st.searchQuery.data) ≠ ""
   then strIncludes
     (strToLower (post.title ++ " " ++ getPlainText post.content))
     (strToLower st.searchQuery)
   else true)

/-- **C4.** `passesFilters` is monotonically restrictive: any post passing
a selection also passes the selection with the tag cleared, with the
category reset to `"all"`, or with the search query emptied.
Contrapositively, setting a tag, a non-`"all"` category, or a non-empty
query can only shrink the passing set, never admit a previously failing
post. -/
theorem passesFilters_monotone (st : BlogState) (p : Post)
    (h : passesFilters st p = true) :
    passesFilters { st with selectedTag := none } p = true ∧
    passesFilters { st with selectedCategory := "all" } p = true ∧
    passesFilters { st with searchQuery := "" } p = true := by
  simp only [passesFilters, Bool.and_eq_true] at h
  obtain ⟨⟨hc, ht⟩, hs⟩ := h
  refine ⟨?_, ?_, ?_⟩
  · simp only [passesFilters, Bool.and_eq_true]
    exact ⟨⟨hc, by simp⟩, hs⟩
  · simp only [passesFilters, Bool.and_eq_true]
    exact ⟨⟨by simp, ht⟩, hs⟩
  · simp only [passesFilters, Bool.and_eq_true]
    exact ⟨⟨hc, ht⟩, by simp [jsTrimL, trimLeftL, trimRightL]⟩

/-- Sample post used by concrete witnesses. -/
def samplePost : Post :=
  { title := "Saying Hello", slug := "a", content := "", published_at := "2024-10-03"
    category := some "tech", tags := some ["X"], author := none }

/-- Sample fully constrained selection used by concrete witnesses. -/
def sampleState : BlogState :=
  { allPosts := [samplePost], selectedCategory := "Tech", selectedTag := some "x"
    searchQuery := "Hello" }

/-- Concrete instance of `passesFilters_monotone`: a post passing a fully
constrained selection (specific category, tag and query) passes each
relaxed selection. -/
theorem passesFilters_monotone_witness :
    passesFilters { sampleState with selectedTag := none } samplePost = true ∧
    passesFilters { sampleState with selectedCategory := "all" } samplePost = true ∧
    passesFilters { sampleState with searchQuery := "" } samplePost = true :=
  passesFilters_monotone sampleState samplePost (by decide)

/-! ## Tag-button click handler (src/js/blog.js lines 487–494)

The handler compares the lowercased current selection with the lowercased
clicked tag, clears the selection on a match and otherwise stores the
clicked tag verbatim; it then only re-renders (no other state change). -/

def tagButtonClick (tag : String) (st : BlogState) : BlogState :=
  let current := st.selectedTag.map strToLower
  let value := strToLower tag
  { st with selectedTag := if current = some value then none else some tag }

/-- State with tag `"x"` selected, used by the C2 theorems. -/
def tagState : BlogState :=
  { allPosts := [], selectedCategory := "all", selectedTag := some "x"
    searchQuery := "" }

/-- **C2 counterexample.** With a *different* tag already selected, clicking
a tag `"y"` twice does not restore the prior selection: the first click
selects `"y"`, the second clears it to `none`, not back to `"x"`. -/
theorem tagButtonClick_toggle_counterexample :
    (tagButtonClick "y" (tagButtonClick "y" tagState)).selectedTag ≠ some "x" := by
  decide

/-- **C2 (amended).** Clicking the tag control for `T` twice in succession
(with no other state change in between) returns `selectedTag` to its prior
value whenever the prior value was `none` or exactly `T`; for any other
prior value the double click ends at `none` (prior tag differing from `T`
case-insensitively) or at `T` itself (prior tag equal to `T` only up to
case), not at the prior value.  Category is untouched throughout. -/
theorem tagButtonClick_toggle (st : BlogState) (tag : String)
    (h : st.selectedTag = none ∨ st.selectedTag = some tag) :
    (tagButtonClick tag (tagButtonClick tag st)).selectedTag = st.selectedTag ∧
    (tagButtonClick tag st).selectedCategory = st.selectedCategory := by
  rcases h with h | h <;> simp [tagButtonClick, h]

/-- Concrete instance of `tagButtonClick_toggle`: double-clicking the
currently selected tag restores it. -/
theorem tagButtonClick_toggle_witness :
    (tagButtonClick "x" (tagButtonClick "x" tagState)).selectedTag
        = tagState.selectedTag ∧
    (tagButtonClick "x" tagState).selectedCategory = tagState.selectedCategory :=
  tagButtonClick_toggle tagState "x" (Or.inr rfl)

/-! ## `getRelatedPosts` (src/js/blog.js lines 161–200)

The source reads the global `allPosts`; the global read is modelled as an
explicit parameter.  JS `Array.prototype.sort` (with comparator
`(a, b) => b.score - a.score`) is stable by the language specification, so
it is modelled as a stable insertion sort by descending score. -/

/-- The score the source assigns to a candidate `p` relative to
`currentPost`: `sharedTagCount * 2`, plus `1` when `currentPost` has a
non-empty category equal (case-insensitively) to `p`'s. -/
def scoreOf (currentPost p : Post) : Nat :=
  let currentTags := (currentPost.tags.getD []).map strToLower
  let currentCategory := strToLower (currentPost.category.getD "")
  let pTags := (p.tags.getD []).map strToLower
  let pCategory := strToLower (p.category.getD "")
  let sharedTagCount := (currentTags.filter (fun t => pTags.contains t)).length
  sharedTagCount * 2 + (if currentCategory ≠ "" ∧ pCategory = currentCategory then 1 else 0)

/-- A scored candidate (`{ post: p, score }` in the source). -/
structure Scored where
  post : Post
  score : Nat
deriving DecidableEq, Repr

/-- The `scored` intermediate list of the source: non-target posts mapped
to scored records, keeping only positive scores. -/
def scoredCandidates (currentPost : Post) (allPosts : List Post) : List Scored :=
  ((allPosts.filter (fun p => p.slug != currentPost.slug)).map
    (fun p => ⟨p, scoreOf currentPost p⟩)).filter (fun i => 0 < i.score)

/-- Insert into a descending-by-score list, after every element of not
smaller score (so earlier elements win ties: stability). -/
def insertByScore (a : Scored) : List Scored → List Scored
  | [] => [a]
  | b :: bs => if b.score ≤ a.score then a :: b :: bs else b :: insertByScore a bs

/-- Stable descending sort by score (the model of the source's
`sort((a, b) => b.score - a.score)`). -/
def sortByScoreDesc : List Scored → List Scored
  | [] => []
  | x :: l => insertByScore x (sortByScoreDesc l)

/-- `getRelatedPosts(currentPost, max)` from the source (global `allPosts`
passed explicitly). -/
def getRelatedPosts (currentPost : Post) (allPosts : List Post) (max : Nat) : List Post :=
  if allPosts.isEmpty then []
  else
    let scored := scoredCandidates currentPost allPosts
    if scored.isEmpty then
      (allPosts.filter (fun p => p.slug != currentPost.slug)).take max
    else ((sortByScoreDesc scored).take max).map Scored.post

theorem mem_insertByScore {a c : Scored} : ∀ {l : List Scored},
    c ∈ insertByScore a l ↔ c = a ∨ c ∈ l := by
  intro l
  induction l with
  | nil => simp [insertByScore]
  | cons b bs ih =>
    by_cases hba : b.score ≤ a.score
    · simp [insertByScore, hba]
    · simp only [insertByScore, if_neg hba, List.mem_cons, ih]
      tauto

theorem insertByScore_perm (a : Scored) (l : List Scored) :
    List.Perm (insertByScore a l) (a :: l) := by
  induction l with
  | nil => exact List.Perm.refl _
  | cons b bs ih =>
    by_cases hba : b.score ≤ a.score
    · simp only [insertByScore, if_pos hba]
      exact List.Perm.refl _
    · simp only [insertByScore, if_neg hba]
      exact (ih.cons b).trans (List.Perm.swap a b bs)

theorem sortByScoreDesc_perm (l : List Scored) :
    List.Perm (sortByScoreDesc l) l := by
  induction l with
  | nil => exact List.Perm.refl _
  | cons x l ih => exact (insertByScore_perm x (sortByScoreDesc l)).trans (ih.cons x)

theorem pairwise_insertByScore (a : Scored) {l : List Scored}
    (h : l.Pairwise (fun x y => y.score ≤ x.score)) :
    (insertByScore a l).Pairwise (fun x y => y.score ≤ x.score) := by
  induction l with
  | nil => simp [insertByScore]
  | cons b bs ih =>
    rw [List.pairwise_cons] at h
    obtain ⟨hb, hbs⟩ := h
    by_cases hba : b.score ≤ a.score
    · simp only [insertByScore, if_pos hba]
      refine List.Pairwise.cons ?_ (List.Pairwise.cons hb hbs)
      intro y hy
      rcases List.mem_cons.mp hy with rfl | hy
      · exact hba
      · exact le_trans (hb y hy) hba
    · simp only [insertByScore, if_neg hba]
      refine List.Pairwise.cons ?_ (ih hbs)
      intro y hy
      rcases mem_insertByScore.mp hy with rfl | hy
      · exact le_of_not_le hba
      · exact hb y hy

theorem sortByScoreDesc_sorted (l : List Scored) :
    (sortByScoreDesc l).Pairwise (fun x y => y.score ≤ x.score) := by
  induction l with
  | nil => simp [sortByScoreDesc]
  | cons x l ih => exact pairwise_insertByScore x ih

/-- Stability of the insertion step: restricting to any one score class
commutes with the insertion, which puts the new element in front of its
class. -/
theorem filter_insertByScore (a : Scored) (l : List Scored) (c : Nat) :
    (insertByScore a l).filter (fun x => x.score == c)
      = ((a :: l).filter (fun x => x.score == c)) := by
  induction l with
  | nil => rfl
  | cons b bs ih =>
    by_cases hba : b.score ≤ a.score
    · simp only [insertByScore, if_pos hba]
    · simp only [insertByScore, if_neg hba]
      by_cases hac : a.score = c
      · have hbc : ¬ b.score = c := by omega
        simp [List.filter_cons, hac, hbc, ih]
      · simp [List.filter_cons, hac, ih]

/-- Stability of the sort: each score class of `sortByScoreDesc l` keeps
the original relative order of `l` (the whole class is literally the
filtered sublist of `l`). -/
theorem filter_sortByScoreDesc (l : List Scored) (c : Nat) :
    (sortByScoreDesc l).filter (fun x => x.score == c)
      = l.filter (fun x => x.score == c) := by
  induction l with
  | nil => rfl
  | cons x l ih =>
    rw [sortByScoreDesc, filter_insertByScore]
    simp only [List.filter_cons, ih]

theorem mem_scoredCandidates {currentPost : Post} {allPosts : List Post}
    {i : Scored} (h : i ∈ scoredCandidates currentPost allPosts) :
    i.post ∈ allPosts ∧ i.post.slug ≠ currentPost.slug ∧ 0 < i.score := by
  simp only [scoredCandidates, List.mem_filter, List.mem_map] at h
  obtain ⟨⟨p, hp, rfl⟩, hscore⟩ := h
  simp only [List.mem_filter, bne_iff_ne] at hp
  exact ⟨hp.1, hp.2, by simpa using hscore⟩

/-- **C5.** `getRelatedPosts` never returns the target (every result slug
differs from the target's) and returns at most `max` posts.  Every
candidate is scored `2 × |sharedTags| + (1 if same category else 0)` with
case-insensitive tag and category comparison.  When some candidate scores
positively, the result is exactly the positive-score candidates in stable
descending score order truncated to `max`: the sorted list is a
permutation of the candidates, its scores are pairwise descending, each
score class keeps the original collection order, and all scores are
positive.  When no candidate scores positively, the result is the first
`max` non-target posts in collection order. -/
theorem getRelatedPosts_spec (currentPost : Post) (allPosts : List Post) (max : Nat) :
    (∀ r ∈ getRelatedPosts currentPost allPosts max, r.slug ≠ currentPost.slug) ∧
    (getRelatedPosts currentPost allPosts max).length ≤ max ∧
    (∀ p : Post, scoreOf currentPost p =
        2 * (((currentPost.tags.getD []).map strToLower).filter
              (fun t => ((p.tags.getD []).map strToLower).contains t)).length
          + (if strToLower (currentPost.category.getD "") ≠ ""
                ∧ strToLower (p.category.getD "")
                    = strToLower (currentPost.category.getD "")
             then 1 else 0)) ∧
    (scoredCandidates currentPost allPosts ≠ [] →
      getRelatedPosts currentPost allPosts max
          = ((sortByScoreDesc (scoredCandidates currentPost allPosts)).take max).map
              Scored.post
        ∧ (sortByScoreDesc (scoredCandidates currentPost allPosts)).Pairwise
            (fun x y => y.score ≤ x.score)
        ∧ List.Perm (sortByScoreDesc (scoredCandidates currentPost allPosts))
            (scoredCandidates currentPost allPosts)
        ∧ (∀ c, (sortByScoreDesc (scoredCandidates currentPost allPosts)).filter
              (fun x => x.score == c)
            = (scoredCandidates currentPost allPosts).filter (fun x => x.score == c))
        ∧ (∀ i ∈ sortByScoreDesc (scoredCandidates currentPost allPosts), 0 < i.score)) ∧
    (scoredCandidates currentPost allPosts = [] →
      getRelatedPosts currentPost allPosts max
        = (allPosts.filter (fun p => p.slug != currentPost.slug)).take max) := by
  refine ⟨?_, ?_, ?_, ?_, ?_⟩
  · intro r hr
    rw [getRelatedPosts] at hr
    by_cases hemp : allPosts.isEmpty
    · rw [if_pos hemp] at hr; cases hr
    · rw [if_neg hemp] at hr
      by_cases hsc : (scoredCandidates currentPost allPosts).isEmpty
      · rw [if_pos hsc] at hr
        have := List.mem_of_mem_take hr
        simp only [List.mem_filter, bne_iff_ne] at this
        exact this.2
      · rw [if_neg hsc] at hr
        obtain ⟨i, hi, rfl⟩ := List.mem_map.mp hr
        have hi' : i ∈ sortByScoreDesc (scoredCandidates currentPost allPosts) :=
          List.mem_of_mem_take hi
        have := (sortByScoreDesc_perm _).mem_iff.mp hi'
        exact (mem_scoredCandidates this).2.1
  · rw [getRelatedPosts]
    by_cases hemp : allPosts.isEmpty
    · simp [hemp]
    · rw [if_neg hemp]
      by_cases hsc : (scoredCandidates currentPost allPosts).isEmpty
      · rw [if_pos hsc]
        simp [List.length_take_le]
      · rw [if_neg hsc]
        simp [List.length_take_le]
  · intro p
    simp only [scoreOf]
    omega
  · intro hne
    have hemp : ¬ allPosts.isEmpty := by
      intro h0
      apply hne
      rw [List.isEmpty_iff] at h0
      simp [scoredCandidates, h0]
    have hsc : ¬ (scoredCandidates currentPost allPosts).isEmpty := by
      simpa [List.isEmpty_iff] using hne
    refine ⟨?_, sortByScoreDesc_sorted _, sortByScoreDesc_perm _,
      fun c => filter_sortByScoreDesc _ c, ?_⟩
    · rw [getRelatedPosts, if_neg hemp, if_neg hsc]
    · intro i hi
      exact (mem_scoredCandidates ((sortByScoreDesc_perm _).mem_iff.mp hi)).2.2
  · intro hz
    rw [getRelatedPosts]
    by_cases hemp : allPosts.isEmpty
    · rw [if_pos hemp]
      rw [List.isEmpty_iff] at hemp
      simp [hemp]
    · rw [if_neg hemp, if_pos (by simp [hz])]

/-- The spec's related-posts scenario posts. -/
def postA : Post :=
  { title := "A", slug := "a", content := "", published_at := ""
    category := some "Tech", tags := some ["x", "y"], author := none }

def postB : Post :=
  { title := "B", slug := "b", content := "", published_at := ""
    category := some "Tech", tags := some ["x"], author := none }

def postC : Post :=
  { title := "C", slug := "c", content := "", published_at := ""
    category := some "Life", tags := some [], author := none }

/-- Concrete instance of `getRelatedPosts_spec` on the spec's scenario
(`b` scores `2·1 + 1 = 3`, `c` scores `0`): the positive-score branch
applies. -/
theorem getRelatedPosts_spec_witness :
    getRelatedPosts postA [postA, postB, postC] 3
      = ((sortByScoreDesc (scoredCandidates postA [postA, postB, postC])).take 3).map
          Scored.post :=
  ((getRelatedPosts_spec postA [postA, postB, postC] 3).2.2.2.1 (by decide)).1

/-! ## `formatSupabaseDate` (src/js/blog.js lines 68–88)

`str.slice(0, 10)` is `take 10`; `split('-')` is `splitDash`; `Number` on
the resulting pieces is `jsNumber`; `new Date(year, month - 1, day)` plus
`toLocaleDateString(undefined, {year:'numeric', month:'short',
day:'numeric'})` is `localeDateString` (the `Number.isNaN(dt.getTime())`
guard can never fire for finite integer components and is dropped). -/

/-- JS `String.prototype.split('-')`. -/
def splitDashAux : List Char → List Char → List (List Char)
  | acc, [] => [acc.reverse]
  | acc, c :: r =>
    if c = '-' then acc.reverse :: splitDashAux [] r else splitDashAux (c :: acc) r

def splitDash (l : List Char) : List (List Char) := splitDashAux [] l

/-- Value of an all-digit string. -/
def digitsToNat (l : List Char) : Nat :=
  l.foldl (fun acc c => acc * 10 + (c.toNat - '0'.toNat)) 0

/-- `Number(x)` on a split piece (or on `undefined` when the piece is
missing, handled by the caller via `Option.bind`).

Modelled from the spec: "parses year/month/day as integers" — an all-digit
piece parses to its value, the empty piece to `0` (JS `Number('') === 0`,
caught by the falsiness check), anything else to NaN (`none`). -/
def jsNumber (s : String) : Option Nat :=
  if s.data.isEmpty then some 0
  else if s.data.all Char.isDigit then some (digitsToNat s.data) else none

/-- The year/month/day components the source extracts: first 10
characters, split on `-`, first three pieces through `Number`; `none` when
any piece is missing or NaN. -/
def dateComponents (value : String) : Option (Nat × Nat × Nat) :=
  let parts := splitDash (value.data.take 10)
  match ((parts.get? 0).bind fun p => jsNumber ⟨p⟩),
      ((parts.get? 1).bind fun p => jsNumber ⟨p⟩),
      ((parts.get? 2).bind fun p => jsNumber ⟨p⟩) with
  | some y, some m, some d => some (y, m, d)
  | _, _, _ => none

/-- Short month names of the default `en-US` locale. -/
def monthShortName : Nat → String
  | 0 => "Jan" | 1 => "Feb" | 2 => "Mar" | 3 => "Apr" | 4 => "May" | 5 => "Jun"
  | 6 => "Jul" | 7 => "Aug" | 8 => "Sep" | 9 => "Oct" | 10 => "Nov" | _ => "Dec"

/-- Modelled from the spec: `new Date(y, m - 1, d).toLocaleDateString`
with `{year:'numeric', month:'short', day:'numeric'}` under the default
locale ("Oct 3, 2024" style).  The `Date` constructor's month overflow
rolls into later years (modelled with div/mod); day overflow is not
modelled (days are rendered as given). -/
def localeDateString (y m d : Nat) : String :=
  monthShortName ((m - 1) % 12) ++ " " ++ toString d ++ ", " ++ toString (y + (m - 1) / 12)

/-- `formatSupabaseDate` from the source. -/
def formatSupabaseDate (value : String) : String :=
  if value = "" then ""
  else
    match dateComponents value with
    | none => ""
    | some (y, m, d) => if y = 0 ∨ m = 0 ∨ d = 0 then "" else localeDateString y m d

/-- **C7.** `formatSupabaseDate` parses year/month/day as integers from
the `YYYY-MM-DD` split of the first 10 characters.  `"not-a-date"` yields
`""`; any zero or unparseable component yields `""`; and a fully positive
parse yields the locale-default format built from the explicit components,
in particular `"Oct 3, 2024"` for `"2024-10-03T00:00:00+00:00"`. -/
theorem formatSupabaseDate_spec :
    formatSupabaseDate "not-a-date" = "" ∧
    formatSupabaseDate "2024-10-03T00:00:00+00:00" = "Oct 3, 2024" ∧
    (∀ s : String,
      (dateComponents s = none ∨
        (∃ y m d, dateComponents s = some (y, m, d) ∧ (y = 0 ∨ m = 0 ∨ d = 0))) →
      formatSupabaseDate s = "") ∧
    (∀ (s : String) (y m d : Nat), dateComponents s = some (y, m, d) →
      0 < y → 0 < m → 0 < d → formatSupabaseDate s = localeDateString y m d) := by
  refine ⟨by decide, by decide, ?_, ?_⟩
  · intro s h
    by_cases h0 : s = ""
    · simp [formatSupabaseDate, h0]
    · rcases h with h | ⟨y, m, d, hc, hz⟩
      · simp [formatSupabaseDate, h0, h]
      · simp [formatSupabaseDate, h0, hc, hz]
  · intro s y m d hc hy hm hd
    have h0 : s ≠ "" := by
      intro h0
      rw [h0] at hc
      have : dateComponents "" = none := by decide
      rw [this] at hc
      cases hc
    rw [formatSupabaseDate, if_neg h0, hc]
    have : ¬ (y = 0 ∨ m = 0 ∨ d = 0) := by omega
    simp [this]

/-- Concrete instance of `formatSupabaseDate_spec` on a positive parse. -/
theorem formatSupabaseDate_spec_witness :
    formatSupabaseDate "1999-12-31" = localeDateString 1999 12 31 :=
  formatSupabaseDate_spec.2.2.2 "1999-12-31" 1999 12 31 (by decide)
    (by decide) (by decide) (by decide)

/-! ## `estimateReadingTime` (src/js/blog.js lines 59–65) -/

/-- Number of maximal non-whitespace runs: the length of
`text.split(/\s+/).filter(Boolean)`. -/
def countWordsAux : Bool → List Char → Nat
  | _, [] => 0
  | inWord, c :: r =>
    if isWs c then countWordsAux false r
    else (if inWord then 0 else 1) + countWordsAux true r

/-- `Math.round(words / 220)` for non-negative `words`: JS rounds half
away from zero, i.e. `⌊words/220 + 1/2⌋`. -/
def jsRoundDiv220 (words : Nat) : Nat := (2 * words + 220) / 440

/-- `estimateReadingTime` from the source. -/
def estimateReadingTime (html : String) : String :=
  let text := getPlainText html
  let words := if text = "" then 0 else countWordsAux false text.data
  if words = 0 then "" else toString (Nat.max 1 (jsRoundDiv220 words)) ++ " min read"

/-! ## JS `||` on optional string fields -/

/-- `x || dflt` for an optional string field (empty string is falsy). -/
def jsOr (s : Option String) (dflt : String) : String :=
  match s with
  | some c => if c = "" then dflt else c
  | none => dflt

/-! ## Grid cards (`renderPosts`, src/js/blog.js lines 504–592)

The template-literal markup is modelled string-for-string (the untouched
static class attributes are kept; insignificant template whitespace and
newlines between markup pieces are elided). -/

/-- The card's tag line: `#`-prefixed tag spans, tags interpolated
verbatim (no `escapeHtml`). -/
def cardTagsHtml (tags : List String) : String :=
  if tags.isEmpty then ""
  else
    "<p class=\"text-[0.7rem] text-dark-grey/90 mb-2\">"
      ++ String.join (tags.map fun t => "<span class=\"inline-block mr-1\">#" ++ t ++ "</span>")
      ++ "</p>"

/-- The inner HTML of one grid card (source lines 539–573): escaped
category badge, escaped title, date/read-time meta line, raw tag spans,
excerpt, and the open affordance. -/
def cardHtml (post : Post) : String :=
  let date := formatSupabaseDate post.published_at
  let excerpt := createExcerpt post.content 220
  let readTime := estimateReadingTime post.content
  let categoryLabel := jsOr post.category "Insight"
  let tags := (post.tags.getD []).filter (fun t => t ≠ "")
  "<div class=\"flex flex-col h-full\"><div class=\"mb-3\">"
    ++ "<span class=\"inline-flex items-center px-2.5 py-1 rounded-full bg-primary/10 border border-primary/40 text-[0.7rem] font-semibold tracking-[0.14em] uppercase text-primary\">"
    ++ escapeHtml categoryLabel ++ "</span></div>"
    ++ "<h2 class=\"text-lg md:text-xl font-semibold mb-1 text-dark-brown\">"
    ++ escapeHtml post.title ++ "</h2>"
    ++ "<p class=\"text-[0.75rem] text-dark-grey mb-2\">"
    ++ String.intercalate " • " ([date, readTime].filter (fun s => s ≠ "")) ++ "</p>"
    ++ cardTagsHtml tags
    ++ "<p class=\"text-sm text-dark-grey/95 flex-1\">" ++ excerpt ++ "</p>"
    ++ "<p class=\"mt-3 text-[0.72rem] uppercase tracking-[0.16em] text-primary font-semibold\">Open full insight</p></div>"

/-- One rendered card: the post it was built from (captured by the card's
click handler) and its markup. -/
structure Card where
  post : Post
  html : String
deriving DecidableEq, Repr

def renderCard (post : Post) : Card := ⟨post, cardHtml post⟩

/-- What `renderPosts` leaves in the grid container: either the
informational placeholder or the card sequence. -/
inductive GridView where
  | placeholderMsg (text : String)
  | cards (cs : List Card)
deriving DecidableEq, Repr

/-- `renderPosts` (lines 504–592): clears the container, filters the
loaded posts by `passesFilters` against the *current* state (nothing is
cached — the filtered view is recomputed from `st` on every call), and
either renders the placeholder or appends one card per visible post in
order. -/
def renderPosts (st : BlogState) : GridView :=
  if (st.allPosts.filter (passesFilters st)).isEmpty then
    .placeholderMsg "No insights match your filters yet."
  else .cards ((st.allPosts.filter (passesFilters st)).map renderCard)

/-- The posts underlying the rendered cards, in rendered order. -/
def renderedPosts : GridView → List Post
  | .placeholderMsg _ => []
  | .cards cs => cs.map Card.post

/-- **C1.** For every view state, the sequence of posts rendered by
`renderPosts` is exactly the subsequence of the loaded posts passing
`passesFilters`, in the loaded order.  `renderPosts` is a pure function of
the current state, so the rendered grid is recomputed from the live
selections on every call — there is no cached filtered view. -/
theorem renderPosts_eq_filter (st : BlogState) :
    renderedPosts (renderPosts st) = st.allPosts.filter (passesFilters st) := by
  rw [renderPosts]
  by_cases h : (st.allPosts.filter (passesFilters st)).isEmpty
  · rw [if_pos h, List.isEmpty_iff.mp h]
    rfl
  · rw [if_neg h]
    show List.map Card.post (List.map renderCard _) = _
    rw [List.map_map]
    have hid : Card.post ∘ renderCard = id := rfl
    rw [hid, List.map_id]

/-- Concrete instance of `renderPosts_eq_filter` at the sample state. -/
theorem renderPosts_eq_filter_witness :
    renderedPosts (renderPosts sampleState)
      = sampleState.allPosts.filter (passesFilters sampleState) :=
  renderPosts_eq_filter sampleState

/-! ## Modal fragments (`openBlogModal`, src/js/blog.js lines 208–346) -/

/-- Modal tag line (lines 221–225): tags interpolated verbatim. -/
def modalTagsHtml (post : Post) : String :=
  let tags := (post.tags.getD []).filter (fun t => t ≠ "")
  if tags.isEmpty then ""
  else
    "<p class=\"text-[0.72rem] text-dark-grey mb-1\">"
      ++ String.join (tags.map fun t => "<span class=\"inline-block mr-1\">#" ++ t ++ "</span>")
      ++ "</p>"

/-- Modal category line (lines 326–328): escaped. -/
def modalCategoryHtml (post : Post) : String :=
  "<p class=\"text-[0.72rem] font-semibold tracking-[0.16em] uppercase text-primary mb-1\">"
    ++ escapeHtml (jsOr post.category "Insight") ++ "</p>"

/-- Modal title heading (lines 331–333): escaped. -/
def modalTitleHtml (post : Post) : String :=
  "<h2 id=\"blog-modal-title\" class=\"text-2xl md:text-3xl font-semibold mb-1 text-dark-brown\">"
    ++ escapeHtml post.title ++ "</h2>"

/-- Modal author footer (line 275): escaped. -/
def modalAuthorHtml (post : Post) : String :=
  match post.author with
  | some a =>
    if a = "" then ""
    else "<p class=\"text-sm text-dark-grey/80 mt-4 text-right\">By " ++ escapeHtml a ++ "</p>"
  | none => ""

/-- Modal date footer (line 276): escaped. -/
def modalDateHtml (dateText : String) : String :=
  if dateText = "" then ""
  else "<p class=\"text-xs text-dark-grey/70 mt-1 text-right\">" ++ escapeHtml dateText ++ "</p>"

/-- One related-posts entry (lines 307–316): slug and title interpolated
verbatim (no `escapeHtml`). -/
def relatedEntryHtml (r : Post) : String :=
  "<button type=\"button\" class=\"w-full text-left text-sm text-primary hover:text-accent underline-offset-2 hover:underline flex flex-col\" data-rel-slug=\""
    ++ r.slug ++ "\"><span class=\"font-semibold\">" ++ r.title
    ++ "</span><span class=\"text-[0.7rem] text-dark-grey\">"
    ++ formatSupabaseDate r.published_at ++ "</span></button>"

/-- A post whose user-controlled fields carry HTML metacharacters. -/
def unsafePost : Post :=
  { title := "<i>T</i>", slug := "p", content := "", published_at := ""
    category := some "<c>", tags := some ["<b>x</b>"], author := some "<u>A</u>" }

/-- A related post whose title carries HTML metacharacters. -/
def unsafeRelated : Post :=
  { title := "<i>R</i>", slug := "r", content := "", published_at := ""
    category := none, tags := none, author := none }

/-- **C10.** For a post whose tag strings and whose related post's title
contain HTML metacharacters: the grid card and the modal tag line carry
the raw tag text (and not its escaped form), and the related-posts entry
carries the raw related title (and not its escaped form) — while the card
title, modal title, modal category, modal author and modal date are
interpolated through `escapeHtml` (the escaped text appears, the raw text
does not). -/
theorem unescaped_interpolation :
    strIncludes (cardHtml unsafePost) "#<b>x</b>" = true ∧
    strIncludes (cardHtml unsafePost) (escapeHtml "<b>x</b>") = false ∧
    strIncludes (cardHtml unsafePost) (escapeHtml "<i>T</i>") = true ∧
    strIncludes (cardHtml unsafePost) "<i>T</i>" = false ∧
    strIncludes (modalTagsHtml unsafePost) "#<b>x</b>" = true ∧
    strIncludes (modalTagsHtml unsafePost) (escapeHtml "<b>x</b>") = false ∧
    strIncludes (relatedEntryHtml unsafeRelated) "<i>R</i>" = true ∧
    strIncludes (relatedEntryHtml unsafeRelated) (escapeHtml "<i>R</i>") = false ∧
    strIncludes (modalTitleHtml unsafePost) (escapeHtml "<i>T</i>") = true ∧
    strIncludes (modalTitleHtml unsafePost) "<i>T</i>" = false ∧
    strIncludes (modalCategoryHtml unsafePost) (escapeHtml "<c>") = true ∧
    strIncludes (modalCategoryHtml unsafePost) "<c>" = false ∧
    strIncludes (modalAuthorHtml unsafePost) (escapeHtml "<u>A</u>") = true ∧
    strIncludes (modalAuthorHtml unsafePost) "<u>A</u>" = false ∧
    strIncludes (modalDateHtml "<d>") (escapeHtml "<d>") = true ∧
    strIncludes (modalDateHtml "<d>") "<d>" = false := by
  set_option maxRecDepth 40000 in decide

/-! ## `loadPosts` (src/js/blog.js lines 596–640)

The awaited Supabase call is external: its outcome (a `{ data, error }`
response, or a thrown exception) is a parameter.  DOM effects are recorded
as an action trace in execution order; the loading and error indicator
elements are assumed present (when absent the corresponding actions
silently no-op in the source).  The whole body sits in `try/catch`, so
`loadPosts` is a total function of the outcome — no exception escapes. -/

inductive LoadAction where
  | showLoading
  | hideError
  | hideLoading
  | showError (msg : String)
  | setPosts (posts : List Post)
  | buildControls
  | renderGrid
deriving DecidableEq, Repr

inductive LoadOutcome where
  | result (data : Option (List Post)) (error : Option String)
  | thrown (e : String)
deriving DecidableEq, Repr

/-- The service-failure user message (source line 617–618). -/
def serviceErrorMessage : String :=
  "Unable to load insights right now. Please try again later."

/-- The generic-failure user message (source line 635–636). -/
def genericErrorMessage : String :=
  "Something went wrong while loading insights."

/-- `loadPosts` on a settled outcome: updated view state plus the DOM
action trace, in source order. -/
def loadPosts (outcome : LoadOutcome) (st : BlogState) : BlogState × List LoadAction :=
  match outcome with
  | .result _ (some _) =>
    (st, [.showLoading, .hideError, .showError serviceErrorMessage, .hideLoading])
  | .result d none =>
    let posts := d.getD []
    ({ st with allPosts := posts },
      [.showLoading, .hideError, .setPosts posts, .hideLoading, .buildControls, .renderGrid])
  | .thrown _ =>
    (st, [.showLoading, .hideError, .hideLoading, .showError genericErrorMessage])

/-- **C9.** On a service-reported error, `loadPosts` hides the loading
indicator, shows the service-failure message, and leaves the stored posts
unchanged; on a thrown exception it hides the loading indicator and shows
the distinct generic-failure message; in both failure cases the trace
contains no filter-control build and no grid render (and `loadPosts` is a
total function — no exception escapes it). -/
theorem loadPosts_failure_spec (st : BlogState) (d : Option (List Post)) (e msg : String) :
    ((loadPosts (.result d (some msg)) st).1.allPosts = st.allPosts
      ∧ (loadPosts (.result d (some msg)) st).2
          = [.showLoading, .hideError, .showError serviceErrorMessage, .hideLoading]
      ∧ LoadAction.buildControls ∉ (loadPosts (.result d (some msg)) st).2
      ∧ LoadAction.renderGrid ∉ (loadPosts (.result d (some msg)) st).2)
    ∧ ((loadPosts (.thrown e) st).2
          = [.showLoading, .hideError, .hideLoading, .showError genericErrorMessage]
      ∧ LoadAction.buildControls ∉ (loadPosts (.thrown e) st).2
      ∧ LoadAction.renderGrid ∉ (loadPosts (.thrown e) st).2)
    ∧ serviceErrorMessage ≠ genericErrorMessage := by
  refine ⟨⟨rfl, rfl, by simp [loadPosts], by simp [loadPosts]⟩,
    ⟨rfl, by simp [loadPosts], by simp [loadPosts]⟩, by decide⟩

/-- Concrete instance of `loadPosts_failure_spec`. -/
theorem loadPosts_failure_spec_witness :
    ((loadPosts (.result none (some "boom")) sampleState).1.allPosts
        = sampleState.allPosts
      ∧ (loadPosts (.result none (some "boom")) sampleState).2
          = [.showLoading, .hideError, .showError serviceErrorMessage, .hideLoading]
      ∧ LoadAction.buildControls ∉ (loadPosts (.result none (some "boom")) sampleState).2
      ∧ LoadAction.renderGrid ∉ (loadPosts (.result none (some "boom")) sampleState).2)
    ∧ ((loadPosts (.thrown "oops") sampleState).2
          = [.showLoading, .hideError, .hideLoading, .showError genericErrorMessage]
      ∧ LoadAction.buildControls ∉ (loadPosts (.thrown "oops") sampleState).2
      ∧ LoadAction.renderGrid ∉ (loadPosts (.thrown "oops") sampleState).2)
    ∧ serviceErrorMessage ≠ genericErrorMessage :=
  loadPosts_failure_spec sampleState none "oops" "boom"

end Blog
